import Mathlib

/-!
Verification of `pytab/core.py`, a transcoding hardware benchmarking client.

The development shallowly embeds the core functions of the source file:
`match_hash` (hash negotiation), `obtainSource` (artifact acquisition),
`unpackArchive` (archive extraction), `benchmark` (the worker ramp
controller) and `output_json` (report output).  File contents, HTTP
responses and the SHA-256 digest function are modelled abstractly: a file
is an optional `Content` (a string), the digest function is a parameter
`sha : Content → String`, and the single HTTP GET performed by
`obtainSource` is an oracle value of type `HttpResult`.  Side effects that
the specification talks about (network fetches, `os.remove` calls, the
final file content at `file_path`) are recorded explicitly in the returned
trace so that frame properties can be stated and proved.
-/

namespace PyTab

/-! ## Hash negotiator (`match_hash`, core.py lines 47-70) -/

/-- The client's allow-list of hashing methods
(`supported_hashes = ["sha256"]`, core.py line 48). -/
def supported_hashes : List String := ["sha256"]

/-- The `for hash in hash_dict` loop of `match_hash` (core.py lines 60-64):
scan the descriptor's entries in order and return the first pair whose key
is in the allow-list.  Falls through to `(none, none)` (line 70) when no
entry qualifies.  A Python dict is embedded as an association list in
insertion order. -/
def findSupported : List (String × String) → Option String × Option String
  | [] => (none, none)
  | (k, v) :: rest =>
      if k ∈ supported_hashes then (some k, some v) else findSupported rest

/-- `match_hash` (core.py lines 47-70).  The `output` flag only controls
`click.echo` advisories and is omitted; the returned value does not depend
on it.  An empty descriptor returns `(None, None)` immediately (lines
52-58); otherwise the loop over the entries runs (lines 60-70). -/
def match_hash (hash_dict : List (String × String)) :
    Option String × Option String :=
  if hash_dict.isEmpty then (none, none)
  else findSupported hash_dict

/-- First value stored under a key in an association list, mirroring a
Python dict lookup `hash_dict[hash]`. -/
def lookupKey (a : String) : List (String × String) → Option String
  | [] => none
  | (k, v) :: rest => if k = a then some v else lookupKey a rest

/-- The specification's reading of the negotiator: precedence is decided
by allow-list order (the first algorithm of `supported_hashes` that occurs
as a key of the descriptor wins), not by descriptor order.  Used only to
be compared against `match_hash` above. -/
def match_hash_by_allowlist (hash_dict : List (String × String)) :
    Option String × Option String :=
  match supported_hashes.find? (fun a => (lookupKey a hash_dict).isSome) with
  | some a => (some a, lookupKey a hash_dict)
  | none => (none, none)

/-! ## Artifact acquirer (`obtainSource`, core.py lines 83-125) -/

/-- Abstract file content.  The digest function is kept abstract as a
parameter `sha : Content → String` standing for `calculate_sha256`
(core.py lines 73-80) applied to the file holding that content. -/
abbrev Content := String

/-- Outcome of the single `reqGet(source_url)` call (core.py line 110):
a success status with a body, a non-success status code, or a raised
transport-level exception. -/
inductive HttpResult where
  | ok (body : Content)
  | status (code : Nat)
  | fault
  deriving DecidableEq

/-- Return value of `obtainSource`, split by the path that produced it:
`cachedValid p` and `downloaded p` are both `(True, file_path)` in the
source (lines 98 and 122), distinguished by whether a download happened;
the three failure constructors are `(False, status_code)` (line 117),
`(False, "Unknown Error!")` (line 119) and `(False, "Invalid Checksum!")`
(line 125). -/
inductive AcqResult where
  | cachedValid (path : String)
  | downloaded (path : String)
  | failedStatus (code : Nat)
  | failedTransport
  | failedChecksum
  deriving DecidableEq

/-- Observable trace of one `obtainSource` call: its return value, the
content left at `file_path` on return (`none` when no file is there), the
number of HTTP GETs performed and the number of `os.remove` calls made. -/
structure AcqTrace where
  result : AcqResult
  fileAfter : Option Content
  fetches : Nat
  deletions : Nat
  deriving DecidableEq

/-- `os.path.basename`: the part of the URL after the last `/`
(core.py line 89). -/
def basename (s : String) : String := (s.splitOn "/").getLastD s

/-- `file_path = os.path.join(target_path, filename)` (core.py lines
88-90).  `os.path.realpath` is path canonicalisation by the OS and is
modelled as the identity. -/
def filePathOf (target_path source_url : String) : String :=
  target_path ++ "/" ++ basename source_url

/-- The download half of `obtainSource` (core.py lines 109-125), entered
with `dels` deletions already performed (1 when a stale cached file was
removed at line 100, else 0) and no file at `file_path`.  On a 200
response the body is written to `file_path` and re-verified; a checksum
mismatch deletes the file again (line 124).  Non-success statuses and
transport faults return before any write. -/
def downloadStep (fp : String) (source_hash : Option String)
    (sha : Content → String) (http : HttpResult) (dels : Nat) : AcqTrace :=
  match http with
  | .ok body =>
      if some (sha body) = source_hash ∨ source_hash = none then
        ⟨.downloaded fp, some body, 1, dels⟩
      else
        ⟨.failedChecksum, none, 1, dels + 1⟩
  | .status code => ⟨.failedStatus code, none, 1, dels⟩
  | .fault => ⟨.failedTransport, none, 1, dels⟩

/-- `obtainSource` (core.py lines 83-125).  `file₀` is the content at
`file_path` when the call starts (`none` if absent); `http` is the
response the network would give if a GET is performed.  The
`notify_on_download` flag only controls echoes and is omitted.  Directory
creation (lines 103-104) has no observable effect on the trace fields and
is not recorded.  The existing-file branch mirrors lines 92-100: an
existing checksum is computed only when the negotiated algorithm is
`"sha256"`, the file is kept iff `existing_checksum == source_hash or
source_hash is None`, and otherwise it is removed before downloading. -/
def obtainSource (target_path source_url : String)
    (hash_dict : List (String × String)) (sha : Content → String)
    (http : HttpResult) (file₀ : Option Content) : AcqTrace :=
  let negotiated := match_hash hash_dict
  let hash_algorithm := negotiated.1
  let source_hash := negotiated.2
  let fp := filePathOf target_path source_url
  match file₀ with
  | some c =>
      let existing_checksum : Option String :=
        if hash_algorithm = some "sha256" then some (sha c) else none
      if existing_checksum = source_hash ∨ source_hash = none then
        ⟨.cachedValid fp, some c, 0, 0⟩
      else
        downloadStep fp source_hash sha http 1
  | none => downloadStep fp source_hash sha http 0

/-! ## Archive unpacker (`unpackArchive`, core.py lines 128-145) -/

/-- Python `str.endswith`, phrased over character lists. -/
def endswith (s sfx : String) : Bool :=
  List.isSuffixOf sfx.toList s.toList

/-- `unpackArchive` (core.py lines 128-145), modelled on the contents of
the target directory.  `entries` are the members of the archive at
`archive_path` (abstract: extraction itself is the OS's business);
`target₀` is the directory's contents before the call, `none` when the
directory does not exist.  The source first destroys an existing target
directory (`rmtree`, line 130) and recreates it empty (`makedirs`, line
135) — unconditionally, before the suffix of `archive_path` is ever
examined — and then extracts only when the suffix is `.zip` or `.tar.gz`
(lines 139-144).  The returned list is the directory's contents after the
call (the directory always exists afterwards). -/
def unpackArchive (archive_path : String) (entries : List String)
    (target₀ : Option (List String)) : List String :=
  let _ := target₀
  let cleared : List String := []
  if endswith archive_path ".zip" then entries
  else if endswith archive_path ".tar.gz" then entries
  else cleared

/-! ## Worker ramp controller (`benchmark`, core.py lines 148-186) -/

/-- One sample of the external worker primitive, as recorded in `runs`:
the dict `{"workers": ..., "speed": ..., "rss_kb": ...}` read at core.py
lines 179-182. -/
structure WorkerSample where
  workers : Nat
  speed : ℚ
  rss_kb : ℤ
  deriving DecidableEq

/-- What the external worker reports at one ramp step, before the
requested concurrency is attached: an error detail, or measured speed
and resident memory. -/
inductive WorkerReply where
  | err (detail : String)
  | metrics (speed : ℚ) (rss_kb : ℤ)
  deriving DecidableEq

/-- Outcome of one `worker.workMan(total_workers, ffmpeg_cmd)` call as
`benchmark` consumes it: `output[0]` truthy with `output[1]` the error
detail, or `output[0]` falsy with `output[1]` the sample dict. -/
inductive WorkerOutcome where
  | failure (detail : String)
  | success (s : WorkerSample)
  deriving DecidableEq

/-- Modelled from the spec: `worker.workMan` lives in module
`pytab.worker`, which is not among the sources.  Per the specification's
worker-primitive interface, invoking it at concurrency `n` returns either
an error detail or a `WorkerSample` whose `workers` field is the requested
count `n`, with the measured speed factor and resident memory. -/
def workMan (n : Nat) : WorkerReply → WorkerOutcome
  | .err detail => .failure detail
  | .metrics speed rss => .success ⟨n, speed, rss⟩

/-- The `while run` loop of `benchmark` (core.py lines 158-175), driven by
the list of replies the worker will give at successive steps.  `n` is
`total_workers`, `acc` is `runs`.  Each step first checks `output[0]`
(stop with the error detail, sample not recorded, line 161-163), then
`output[1]["speed"] < 1` (stop with reason `"performance"`, sample not
recorded, lines 164-166), and otherwise appends the sample and advances
(lines 170-173).  The Python loop is unbounded; running out of replies
models a non-terminating run and yields `none`. -/
def benchLoop : List WorkerReply → Nat → List WorkerSample →
    Option (List WorkerSample × List String)
  | [], _, _ => none
  | r :: rest, n, acc =>
      match workMan n r with
      | .failure detail => some (acc, [detail])
      | .success s =>
          if s.speed < 1 then some (acc, ["performance"])
          else benchLoop rest (n + 1) (acc ++ [s])

/-- The summary dict built at core.py lines 178-183. -/
structure RampSummary where
  max_streams : Nat
  failure_reasons : List String
  single_worker_speed : ℚ
  single_worker_rss_kb : ℤ
  deriving DecidableEq

/-- `benchmark` (core.py lines 148-186) as a function of the worker's
replies.  Returns `none` when the loop would never terminate on the given
reply list; otherwise `some (valid, runs, summary)` where `summary` is
`none` for the empty-runs `{}` case (line 186).  When `runs` is non-empty
the summary fields are read off `runs[len(runs)-1]` (lines 179-182) and
`failure_reason` (line 180); the progress bar is display-only and
omitted. -/
def benchmark (replies : List WorkerReply) :
    Option (Bool × List WorkerSample × Option RampSummary) :=
  match benchLoop replies 1 [] with
  | none => none
  | some (runs, reasons) =>
      match runs.getLast? with
      | some last =>
          some (true, runs, some ⟨last.workers, reasons, last.speed, last.rss_kb⟩)
      | none => some (false, runs, none)

/-! ## Report output (`output_json`, core.py lines 189-201) -/

/-- `os.path.dirname`: everything before the last `/`, with trailing
slashes stripped unless the head is all slashes (so `dirname "/a" = "/"`,
`dirname "a/b" = "a"`, `dirname "a" = ""`). -/
def dirname (s : String) : String :=
  let head := (s.toList.reverse.dropWhile (· ≠ '/')).reverse
  if head = [] then ""
  else if head.all (· = '/') then String.mk head
  else String.mk ((head.reverse.dropWhile (· = '/')).reverse)

/-- What `output_json` did when it returned normally. -/
inductive OutEffect where
  | wroteFile (path : String) (doc : String)
  | wroteStdout (doc : String)
  deriving DecidableEq

/-- The exceptions `output_json` can raise from its first statement. -/
inductive PyError where
  | typeError
  | fileNotFound
  deriving DecidableEq

/-- `output_json` (core.py lines 189-201).  `doc` stands for the
serialized JSON document; `file_path` is `none` when no path is given.
The first statement, `os.makedirs(os.path.dirname(file_path),
exist_ok=True)` (line 191), runs before the `if file_path:` test:
`os.path.dirname(None)` raises `TypeError`, and `os.makedirs("")`
(reached when `dirname` of the given path is empty, e.g. for `""` or a
bare filename) raises `FileNotFoundError`.  Only afterwards does the
branch at line 194 write to the file or to stdout. -/
def output_json (doc : String) (file_path : Option String) :
    Except PyError OutEffect :=
  match file_path with
  | none => .error .typeError
  | some p =>
      if dirname p = "" then .error .fileNotFound
      else if p ≠ "" then .ok (.wroteFile p doc)
      else .ok (.wroteStdout doc)

/-! ## Helper lemmas -/

/-- The empty-descriptor early return coincides with the loop falling
through, so `match_hash` is extensionally the loop. -/
theorem match_hash_eq_findSupported (d : List (String × String)) :
    match_hash d = findSupported d := by
  cases d with
  | nil => rfl
  | cons p rest => rfl

/-- When the loop returns an expected digest, the algorithm it returns is
`"sha256"`, the only member of the allow-list. -/
theorem findSupported_snd_some (d : List (String × String)) (h : String)
    (hd : (findSupported d).2 = some h) :
    (findSupported d).1 = some "sha256" := by
  induction d with
  | nil => simp [findSupported] at hd
  | cons p rest ih =>
      obtain ⟨k, v⟩ := p
      by_cases hk : k ∈ supported_hashes
      · have hk' : k = "sha256" := by
          simpa [supported_hashes] using hk
        simp [findSupported, hk, hk', supported_hashes]
      · simp only [findSupported, if_neg hk] at hd ⊢
        exact ih hd

/-- The allow-list has a single member, so the spec-side negotiator is a
plain conditional on that member's presence. -/
theorem allowlist_unfold (d : List (String × String)) :
    match_hash_by_allowlist d =
      if (lookupKey "sha256" d).isSome then
        (some "sha256", lookupKey "sha256" d)
      else (none, none) := by
  by_cases hb : (lookupKey "sha256" d).isSome
  · simp [match_hash_by_allowlist, supported_hashes, List.find?, hb]
  · simp [match_hash_by_allowlist, supported_hashes, List.find?, hb]

/-- When `match_hash` negotiates an expected digest, the negotiated
algorithm is `"sha256"`. -/
theorem match_hash_snd_some (d : List (String × String)) (h : String)
    (hd : (match_hash d).2 = some h) :
    (match_hash d).1 = some "sha256" := by
  rw [match_hash_eq_findSupported] at hd ⊢
  exact findSupported_snd_some d h hd

theorem findSupported_eq_allowlist (d : List (String × String)) :
    findSupported d = match_hash_by_allowlist d := by
  induction d with
  | nil => rfl
  | cons p rest ih =>
      obtain ⟨k, v⟩ := p
      by_cases hk : k = "sha256"
      · subst hk
        simp [findSupported, supported_hashes, allowlist_unfold, lookupKey]
      · have hk' : k ∉ supported_hashes := by
          simp [supported_hashes, hk]
        have hlook : lookupKey "sha256" ((k, v) :: rest) =
            lookupKey "sha256" rest := by
          simp [lookupKey, hk]
        rw [allowlist_unfold, hlook]
        simp only [findSupported, if_neg hk']
        rw [ih, allowlist_unfold]

theorem findSupported_unsupported (d : List (String × String))
    (hd : ∀ p ∈ d, p.1 ∉ supported_hashes) :
    findSupported d = (none, none) := by
  induction d with
  | nil => rfl
  | cons p rest ih =>
      obtain ⟨k, v⟩ := p
      have hk : k ∉ supported_hashes := hd (k, v) (List.mem_cons_self _ _)
      simp only [findSupported, if_neg hk]
      exact ih fun q hq => hd q (List.mem_cons_of_mem _ hq)

/-! ## Claims about the hash negotiator -/

/-- C6: `match_hash` returns `(algorithm, expectedDigest)` for the first
descriptor key in the client's allow-list — equivalently (and provably so)
for the first allow-list algorithm occurring in the descriptor, so
allow-list order decides precedence — and it returns `(none, none)` both
on the empty descriptor and on a non-empty descriptor containing no
supported algorithm. -/
theorem match_hash_spec (d : List (String × String)) :
    match_hash d = match_hash_by_allowlist d ∧
    (d = [] → match_hash d = (none, none)) ∧
    ((∀ p ∈ d, p.1 ∉ supported_hashes) → match_hash d = (none, none)) := by
  refine ⟨?_, ?_, ?_⟩
  · rw [match_hash_eq_findSupported]
    exact findSupported_eq_allowlist d
  · intro hd; subst hd; rfl
  · intro hd
    rw [match_hash_eq_findSupported]
    exact findSupported_unsupported d hd

/-- Witness for C6 at a concrete unsupported-only descriptor. -/
theorem match_hash_spec_witness :
    (∀ p ∈ [("md5", "x")], Prod.fst p ∉ supported_hashes) ∧
    match_hash [("md5", "x")] = (none, none) :=
  ⟨by decide, (match_hash_spec [("md5", "x")]).2.2 (by decide)⟩

/-! ## Claims about the artifact acquirer -/

/-- Unfolding of `downloadStep` on a 200 response. -/
theorem downloadStep_ok (fp : String) (source_hash : Option String)
    (sha : Content → String) (body : Content) (dels : Nat) :
    downloadStep fp source_hash sha (.ok body) dels =
      if some (sha body) = source_hash ∨ source_hash = none then
        ⟨.downloaded fp, some body, 1, dels⟩
      else ⟨.failedChecksum, none, 1, dels + 1⟩ := rfl

/-- Unfolding of `obtainSource` when no file is present at `file_path`. -/
theorem obtainSource_none_unfold (target_path source_url : String)
    (hash_dict : List (String × String)) (sha : Content → String)
    (http : HttpResult) :
    obtainSource target_path source_url hash_dict sha http none =
      downloadStep (filePathOf target_path source_url)
        (match_hash hash_dict).2 sha http 0 := rfl

/-- Unfolding of `obtainSource` when a file is already present. -/
theorem obtainSource_some_unfold (target_path source_url : String)
    (hash_dict : List (String × String)) (sha : Content → String)
    (http : HttpResult) (c₀ : Content) :
    obtainSource target_path source_url hash_dict sha http (some c₀) =
      if (if (match_hash hash_dict).1 = some "sha256" then some (sha c₀)
            else none) = (match_hash hash_dict).2 ∨
          (match_hash hash_dict).2 = none then
        ⟨.cachedValid (filePathOf target_path source_url), some c₀, 0, 0⟩
      else
        downloadStep (filePathOf target_path source_url)
          (match_hash hash_dict).2 sha http 1 := rfl

/-- The download half keeps a file only when its digest is the expected
one. -/
theorem downloadStep_fileAfter (fp : String) (h : String)
    (sha : Content → String) (http : HttpResult) (dels : Nat)
    (c : Content)
    (hc : (downloadStep fp (some h) sha http dels).fileAfter = some c) :
    sha c = h := by
  cases http with
  | ok body =>
      by_cases hv : sha body = h
      · rw [downloadStep_ok, if_pos (Or.inl (congrArg some hv))] at hc
        have hbc : body = c := Option.some_injective _ hc
        rw [← hbc]
        exact hv
      · rw [downloadStep_ok, if_neg ?hne] at hc
        · exact absurd hc (by simp)
        · rintro (he | he)
          · exact hv (Option.some_injective _ he)
          · exact Option.some_ne_none h he
  | status code => exact absurd hc (by simp [downloadStep])
  | fault => exact absurd hc (by simp [downloadStep])

/-- C1: whenever the negotiated hash descriptor yields an expected digest,
`obtainSource` never returns leaving a file at `file_path` whose content
fails that verification — on the cached-valid path, the fresh-download
path, and the failure paths (non-success status, transport fault,
post-download mismatch), including after a stale cached file was
removed. -/
theorem obtainSource_no_unverified_file (target_path source_url : String)
    (hash_dict : List (String × String)) (sha : Content → String)
    (http : HttpResult) (file₀ : Option Content) (h : String)
    (hneg : (match_hash hash_dict).2 = some h) :
    ∀ c, (obtainSource target_path source_url hash_dict sha http
        file₀).fileAfter = some c → sha c = h := by
  intro c hc
  have halg : (match_hash hash_dict).1 = some "sha256" :=
    match_hash_snd_some hash_dict h hneg
  cases file₀ with
  | none =>
      rw [obtainSource_none_unfold, hneg] at hc
      exact downloadStep_fileAfter _ h sha http 0 c hc
  | some c₀ =>
      have hex : (if (match_hash hash_dict).1 = some "sha256" then
          some (sha c₀) else none) = some (sha c₀) := by
        rw [halg]
        exact if_pos rfl
      rw [obtainSource_some_unfold, hex, hneg] at hc
      by_cases hv : sha c₀ = h
      · rw [if_pos (Or.inl (congrArg some hv))] at hc
        have hbc : c₀ = c := Option.some_injective _ hc
        rw [← hbc]
        exact hv
      · rw [if_neg ?hne] at hc
        · exact downloadStep_fileAfter _ h sha http 1 c hc
        · rintro (he | he)
          · exact hv (Option.some_injective _ he)
          · exact Option.some_ne_none h he

/-- Witness for C1: a fresh download whose body hashes to the expected
digest (here `sha` is the identity on contents). -/
theorem obtainSource_no_unverified_file_witness :
    (match_hash [("sha256", "x")]).2 = some "x" ∧
    (obtainSource "t" "u/f.mkv" [("sha256", "x")] id (.ok "x")
        none).fileAfter = some "x" ∧
    id "x" = "x" :=
  ⟨rfl, rfl,
    obtainSource_no_unverified_file "t" "u/f.mkv" [("sha256", "x")] id
      (.ok "x") none "x" rfl "x" rfl⟩

/-- The cached-valid early return: an existing file whose digest matches
the negotiated expectation (or with nothing to verify) is kept, the call
returns `(True, file_path)` and no GET and no removal happen. -/
theorem obtainSource_cached_eq (target_path source_url : String)
    (hash_dict : List (String × String)) (sha : Content → String)
    (http : HttpResult) (c : Content)
    (hv : (match_hash hash_dict).2 = none ∨
      (match_hash hash_dict).2 = some (sha c)) :
    obtainSource target_path source_url hash_dict sha http (some c) =
      ⟨.cachedValid (filePathOf target_path source_url), some c, 0, 0⟩ := by
  rcases hv with hv | hv
  · rw [obtainSource_some_unfold, hv, if_pos (Or.inr rfl)]
  · have halg : (match_hash hash_dict).1 = some "sha256" :=
      match_hash_snd_some hash_dict (sha c) hv
    have hex : (if (match_hash hash_dict).1 = some "sha256" then
        some (sha c) else none) = some (sha c) := by
      rw [halg]
      exact if_pos rfl
    rw [obtainSource_some_unfold, hex, hv, if_pos (Or.inl rfl)]

/-- C5: an existing file at `file_path` whose computed digest matches the
expected value — or for which no verification is possible or required —
makes `obtainSource` return `CachedValid(file_path)` with zero network
fetches; consequently two consecutive calls over an unchanged,
correctly-hashed artifact perform exactly one fetch in total (the second
call never touches the network, whatever the network would answer). -/
theorem obtainSource_cached_idempotent :
    (∀ target_path source_url hash_dict (sha : Content → String)
        (http : HttpResult) (c : Content),
      (match_hash hash_dict).2 = none ∨
        (match_hash hash_dict).2 = some (sha c) →
      (obtainSource target_path source_url hash_dict sha http
          (some c)).result =
          .cachedValid (filePathOf target_path source_url) ∧
      (obtainSource target_path source_url hash_dict sha http
          (some c)).fetches = 0) ∧
    (∀ target_path source_url hash_dict (sha : Content → String)
        (body : Content) (http₂ : HttpResult),
      (match_hash hash_dict).2 = none ∨
        (match_hash hash_dict).2 = some (sha body) →
      (obtainSource target_path source_url hash_dict sha (.ok body)
          none).fetches +
        (obtainSource target_path source_url hash_dict sha http₂
          (obtainSource target_path source_url hash_dict sha (.ok body)
            none).fileAfter).fetches = 1) := by
  have hcached := fun target_path source_url hash_dict sha http c hv =>
    obtainSource_cached_eq target_path source_url hash_dict sha http c hv
  constructor
  · intro target_path source_url hash_dict sha http c hv
    rw [hcached target_path source_url hash_dict sha http c hv]
    exact ⟨rfl, rfl⟩
  · intro target_path source_url hash_dict sha body http₂ hv
    have hfirst : obtainSource target_path source_url hash_dict sha
        (.ok body) none =
        ⟨.downloaded (filePathOf target_path source_url), some body,
          1, 0⟩ := by
      have hv' : some (sha body) = (match_hash hash_dict).2 ∨
          (match_hash hash_dict).2 = none := by
        rcases hv with hv | hv
        · exact Or.inr hv
        · exact Or.inl hv.symm
      rw [obtainSource_none_unfold, downloadStep_ok, if_pos hv']
    rw [hfirst]
    rw [hcached target_path source_url hash_dict sha http₂ body hv]
    rfl

/-- Witness for C5: with no hash offered, a cached call fetches nothing
and a download-then-call pair fetches once. -/
theorem obtainSource_cached_idempotent_witness :
    ((match_hash ([] : List (String × String))).2 = none ∨
      (match_hash ([] : List (String × String))).2 = some (id "c")) ∧
    (obtainSource "t" "u/f.mkv" [] id .fault (some "c")).fetches = 0 ∧
    (obtainSource "t" "u/f.mkv" [] id (.ok "b") none).fetches +
      (obtainSource "t" "u/f.mkv" [] id .fault
        (obtainSource "t" "u/f.mkv" [] id (.ok "b")
          none).fileAfter).fetches = 1 :=
  ⟨Or.inl rfl,
    (obtainSource_cached_idempotent.1 "t" "u/f.mkv" [] id .fault "c"
      (Or.inl rfl)).2,
    obtainSource_cached_idempotent.2 "t" "u/f.mkv" [] id "b" .fault
      (Or.inl rfl)⟩

/-- Amended C8: no call to `obtainSource` performs more than two
deletions; the stale-cache removal and the post-download
checksum-mismatch removal can both fire within one call, and nothing
else deletes. -/
theorem obtainSource_at_most_two_deletions (target_path source_url : String)
    (hash_dict : List (String × String)) (sha : Content → String)
    (http : HttpResult) (file₀ : Option Content) :
    (obtainSource target_path source_url hash_dict sha http
      file₀).deletions ≤ 2 := by
  have hdl : ∀ fp source_hash dels, dels ≤ 1 →
      (downloadStep fp source_hash sha http dels).deletions ≤ 2 := by
    intro fp source_hash dels hdels
    cases http with
    | ok body =>
        rw [downloadStep_ok]
        split
        · show dels ≤ 2
          omega
        · show dels + 1 ≤ 2
          omega
    | status code =>
        show dels ≤ 2
        omega
    | fault =>
        show dels ≤ 2
        omega
  cases file₀ with
  | none =>
      rw [obtainSource_none_unfold]
      exact hdl _ _ 0 (by omega)
  | some c =>
      rw [obtainSource_some_unfold]
      by_cases hcond : (if (match_hash hash_dict).1 = some "sha256" then
            some (sha c) else none) = (match_hash hash_dict).2 ∨
          (match_hash hash_dict).2 = none
      · rw [if_pos hcond]
        show (0 : Nat) ≤ 2
        omega
      · rw [if_neg hcond]
        exact hdl _ _ 1 (by omega)

/-- Counterexample to C8 as stated: a stale cached file that fails
verification is removed, and the freshly downloaded body fails
verification too and is removed as well — two deletions in one call. -/
theorem obtainSource_two_deletions :
    ¬ (obtainSource "t" "u/f.mkv" [("sha256", "h")] (fun _ => "x")
        (.ok "new") (some "old")).deletions ≤ 1 := by
  decide

/-! ## Claims about the archive unpacker -/

/-- Amended C7: for an archive path whose suffix is neither `.zip` nor
`.tar.gz` no extraction happens, but the call is not a no-op — the target
directory is still destroyed and recreated, so afterwards it exists and is
empty whatever it contained before. -/
theorem unpackArchive_unsupported_suffix (archive_path : String)
    (entries : List String) (target₀ : Option (List String))
    (hzip : endswith archive_path ".zip" = false)
    (htar : endswith archive_path ".tar.gz" = false) :
    unpackArchive archive_path entries target₀ = [] := by
  simp [unpackArchive, hzip, htar]

/-- Witness for the amended C7 at a concrete `.rar` path. -/
theorem unpackArchive_unsupported_suffix_witness :
    endswith "a.rar" ".zip" = false ∧ endswith "a.rar" ".tar.gz" = false ∧
    unpackArchive "a.rar" ["x"] (some ["old.txt"]) = [] :=
  ⟨by decide, by decide,
    unpackArchive_unsupported_suffix "a.rar" ["x"] (some ["old.txt"])
      (by decide) (by decide)⟩

/-- Counterexample to C7 as stated: unpacking `a.rar` into a directory
holding `old.txt` does not leave the pre-existing contents unchanged —
the directory comes back empty. -/
theorem unpackArchive_not_noop :
    unpackArchive "a.rar" ["x"] (some ["old.txt"]) ≠ ["old.txt"] := by
  decide

/-! ## Claims about the worker ramp controller -/

/-- The loop's accumulated samples extend the accumulator by a block of
consecutively numbered samples starting at the current worker count. -/
theorem benchLoop_workers_aux (replies : List WorkerReply) :
    ∀ n acc runs reasons, benchLoop replies n acc = some (runs, reasons) →
      ∃ tail, runs = acc ++ tail ∧
        tail.map WorkerSample.workers = List.range' n tail.length := by
  induction replies with
  | nil => intro n acc runs reasons h; exact absurd h (by simp [benchLoop])
  | cons r rest ih =>
      intro n acc runs reasons h
      cases r with
      | err detail =>
          simp only [benchLoop, workMan] at h
          obtain ⟨hruns, _⟩ := Prod.mk.injEq .. ▸ Option.some_injective _ h
          exact ⟨[], by simp [← hruns], rfl⟩
      | metrics speed rss =>
          simp only [benchLoop, workMan] at h
          by_cases hs : speed < 1
          · rw [if_pos hs] at h
            obtain ⟨hruns, _⟩ := Prod.mk.injEq .. ▸ Option.some_injective _ h
            exact ⟨[], by simp [← hruns], rfl⟩
          · rw [if_neg hs] at h
            obtain ⟨tail, htail, hmap⟩ := ih (n + 1) (acc ++ [⟨n, speed, rss⟩])
              runs reasons h
            refine ⟨⟨n, speed, rss⟩ :: tail, ?_, ?_⟩
            · rw [htail, List.append_assoc]
              rfl
            · simp only [List.map_cons, List.length_cons, hmap]
              rfl

/-- A terminating loop ends with a single failure reason. -/
theorem benchLoop_reasons_aux (replies : List WorkerReply) :
    ∀ n acc runs reasons, benchLoop replies n acc = some (runs, reasons) →
      ∃ reason, reasons = [reason] := by
  induction replies with
  | nil => intro n acc runs reasons h; exact absurd h (by simp [benchLoop])
  | cons r rest ih =>
      intro n acc runs reasons h
      cases r with
      | err detail =>
          simp only [benchLoop, workMan] at h
          obtain ⟨_, hreasons⟩ := Prod.mk.injEq .. ▸ Option.some_injective _ h
          exact ⟨detail, hreasons.symm⟩
      | metrics speed rss =>
          simp only [benchLoop, workMan] at h
          by_cases hs : speed < 1
          · rw [if_pos hs] at h
            obtain ⟨_, hreasons⟩ := Prod.mk.injEq .. ▸ Option.some_injective _ h
            exact ⟨"performance", hreasons.symm⟩
          · rw [if_neg hs] at h
            exact ih (n + 1) (acc ++ [⟨n, speed, rss⟩]) runs reasons h

/-- C2: whatever the worker primitive answers at each step, the recorded
run list of a terminating `benchmark` carries worker counts exactly
`[1, 2, ..., k]` — empty or a gapless, duplicate-free prefix of the
naturals from 1, in ramp-step order. -/
theorem benchmark_workers_gapless (replies : List WorkerReply)
    (v : Bool) (runs : List WorkerSample) (summ : Option RampSummary)
    (h : benchmark replies = some (v, runs, summ)) :
    runs.map WorkerSample.workers = List.range' 1 runs.length := by
  unfold benchmark at h
  cases hloop : benchLoop replies 1 [] with
  | none => rw [hloop] at h; exact absurd h (by simp)
  | some p =>
      obtain ⟨runs', reasons⟩ := p
      rw [hloop] at h
      dsimp only at h
      obtain ⟨tail, htail, hmap⟩ :=
        benchLoop_workers_aux replies 1 [] runs' reasons hloop
      rw [List.nil_append] at htail
      have hruns : runs = runs' := by
        cases hlast : runs'.getLast? with
        | none =>
            rw [hlast] at h
            simp only [Option.some.injEq, Prod.mk.injEq] at h
            exact h.2.1.symm
        | some last =>
            rw [hlast] at h
            simp only [Option.some.injEq, Prod.mk.injEq] at h
            exact h.2.1.symm
      rw [hruns, htail]
      exact hmap

/-- Witness for C2 on a short concrete ramp. -/
theorem benchmark_workers_gapless_witness :
    benchmark [.metrics 3 100, .metrics 2 120, .err "crash"] =
      some (true, [⟨1, 3, 100⟩, ⟨2, 2, 120⟩],
        some ⟨2, ["crash"], 2, 120⟩) ∧
    ([⟨1, 3, 100⟩, ⟨2, 2, 120⟩] : List WorkerSample).map
        WorkerSample.workers = List.range' 1 2 :=
  ⟨by decide,
    benchmark_workers_gapless [.metrics 3 100, .metrics 2 120,
      .err "crash"] true [⟨1, 3, 100⟩, ⟨2, 2, 120⟩]
      (some ⟨2, ["crash"], 2, 120⟩) (by decide)⟩

/-- A list with no last element is empty. -/
theorem getLast?_none_iff {α : Type} (l : List α) :
    l.getLast? = none ↔ l = [] := by
  cases l with
  | nil => simp
  | cons a l => simp [List.getLast?_cons]

/-- C3: a terminating `benchmark` returns `valid = false` exactly when the
run list is empty, in which case the summary is the empty `{}`; on a
non-empty run list the summary's `max_streams`, `single_worker_speed` and
`single_worker_rss_kb` are the `workers`, `speed` and `rss_kb` fields of
the last accepted sample. -/
theorem benchmark_valid_iff_summary (replies : List WorkerReply)
    (v : Bool) (runs : List WorkerSample) (summ : Option RampSummary)
    (h : benchmark replies = some (v, runs, summ)) :
    (v = false ↔ runs = []) ∧ (runs = [] → summ = none) ∧
    (∀ last, runs.getLast? = some last →
      ∃ s, summ = some s ∧ s.max_streams = last.workers ∧
        s.single_worker_speed = last.speed ∧
        s.single_worker_rss_kb = last.rss_kb) := by
  unfold benchmark at h
  cases hloop : benchLoop replies 1 [] with
  | none => rw [hloop] at h; exact absurd h (by simp)
  | some p =>
      obtain ⟨runs', reasons⟩ := p
      rw [hloop] at h
      dsimp only at h
      cases hlast : runs'.getLast? with
      | none =>
          rw [hlast] at h
          simp only [Option.some.injEq, Prod.mk.injEq] at h
          obtain ⟨hv, hruns, hsumm⟩ := h
          have hempty : runs = [] := by
            rw [← hruns]
            exact (getLast?_none_iff runs').mp hlast
          refine ⟨by simp [← hv, hempty], fun _ => hsumm.symm, ?_⟩
          intro last hl
          rw [hempty] at hl
          exact absurd hl (by simp)
      | some last =>
          rw [hlast] at h
          simp only [Option.some.injEq, Prod.mk.injEq] at h
          obtain ⟨hv, hruns, hsumm⟩ := h
          have hne : runs ≠ [] := by
            rw [← hruns]
            intro hcon
            rw [hcon] at hlast
            exact absurd hlast (by simp)
          refine ⟨by simp [← hv, hne], fun hcon => absurd hcon hne, ?_⟩
          intro last' hl
          rw [← hruns] at hl
          rw [hlast] at hl
          obtain rfl : last = last' := Option.some_injective _ hl
          exact ⟨_, hsumm.symm, rfl, rfl, rfl⟩

/-- Witness for C3 on a one-sample ramp stopped by low speed. -/
theorem benchmark_valid_iff_summary_witness :
    benchmark [.metrics 3 100, .metrics 0 120] =
      some (true, [⟨1, 3, 100⟩], some ⟨1, ["performance"], 3, 100⟩) ∧
    ((true = false ↔ ([⟨1, 3, 100⟩] : List WorkerSample) = []) ∧
      (([⟨1, 3, 100⟩] : List WorkerSample) = [] →
        (some ⟨1, ["performance"], 3, 100⟩ : Option RampSummary) = none) ∧
      (∀ last, ([⟨1, 3, 100⟩] : List WorkerSample).getLast? = some last →
        ∃ s, (some ⟨1, ["performance"], 3, 100⟩ : Option RampSummary) =
            some s ∧ s.max_streams = last.workers ∧
          s.single_worker_speed = last.speed ∧
          s.single_worker_rss_kb = last.rss_kb)) :=
  ⟨by decide,
    benchmark_valid_iff_summary [.metrics 3 100, .metrics 0 120] true
      [⟨1, 3, 100⟩] (some ⟨1, ["performance"], 3, 100⟩) (by decide)⟩

/-- C4: when the worker returns a sample whose speed factor is below 1.0
the loop stops at once with the single reason `"performance"` and the
sample is not recorded (the accumulated runs are returned unchanged and
later replies are never consulted); and an error outcome is handled by
the earlier stop condition, yielding the error detail and never reaching
the speed test. -/
theorem benchLoop_stop_conditions :
    (∀ rest n acc (speed : ℚ) (rss : ℤ), speed < 1 →
      benchLoop (.metrics speed rss :: rest) n acc =
        some (acc, ["performance"])) ∧
    (∀ rest n acc detail,
      benchLoop (.err detail :: rest) n acc = some (acc, [detail])) := by
  constructor
  · intro rest n acc speed rss hs
    simp [benchLoop, workMan, if_pos hs]
  · intro rest n acc detail
    rfl

/-- Witness for C4 at a concrete sub-real-time sample. -/
theorem benchLoop_stop_conditions_witness :
    (0 : ℚ) < 1 ∧
    benchLoop [.metrics 0 7, .err "later"] 3 [⟨1, 3, 9⟩] =
      some ([⟨1, 3, 9⟩], ["performance"]) :=
  ⟨by decide,
    benchLoop_stop_conditions.1 [.err "later"] 3 [⟨1, 3, 9⟩] 0 7
      (by decide)⟩

/-- C10: a terminating ramp loop ends with exactly one failure reason —
the single append that broke the loop — and any summary the result
carries holds exactly that one-element reason list. -/
theorem benchmark_single_failure_reason (replies : List WorkerReply)
    (v : Bool) (runs : List WorkerSample) (summ : Option RampSummary)
    (h : benchmark replies = some (v, runs, summ)) :
    ∃ reason, benchLoop replies 1 [] = some (runs, [reason]) ∧
      ∀ s, summ = some s → s.failure_reasons = [reason] := by
  unfold benchmark at h
  cases hloop : benchLoop replies 1 [] with
  | none => rw [hloop] at h; exact absurd h (by simp)
  | some p =>
      obtain ⟨runs', reasons⟩ := p
      rw [hloop] at h
      dsimp only at h
      obtain ⟨reason, hr⟩ :=
        benchLoop_reasons_aux replies 1 [] runs' reasons hloop
      subst hr
      cases hlast : runs'.getLast? with
      | none =>
          rw [hlast] at h
          simp only [Option.some.injEq, Prod.mk.injEq] at h
          obtain ⟨hv, hruns, hsumm⟩ := h
          refine ⟨reason, by rw [hruns], ?_⟩
          intro s hs
          rw [← hsumm] at hs
          exact absurd hs (by simp)
      | some last =>
          rw [hlast] at h
          simp only [Option.some.injEq, Prod.mk.injEq] at h
          obtain ⟨hv, hruns, hsumm⟩ := h
          refine ⟨reason, by rw [hruns], ?_⟩
          intro s hs
          rw [← hsumm] at hs
          obtain rfl := Option.some_injective _ hs
          rfl

/-- Witness for C10 on a ramp stopped by a worker error. -/
theorem benchmark_single_failure_reason_witness :
    benchmark [.metrics 3 100, .err "boom"] =
      some (true, [⟨1, 3, 100⟩], some ⟨1, ["boom"], 3, 100⟩) ∧
    ∃ reason, benchLoop [.metrics 3 100, .err "boom"] 1 [] =
        some ([⟨1, 3, 100⟩], [reason]) ∧
      ∀ s, (some ⟨1, ["boom"], 3, 100⟩ : Option RampSummary) = some s →
        s.failure_reasons = [reason] :=
  ⟨by decide,
    benchmark_single_failure_reason [.metrics 3 100, .err "boom"] true
      [⟨1, 3, 100⟩] (some ⟨1, ["boom"], 3, 100⟩) (by decide)⟩

/-! ## Claim about the report output -/

/-- C9 (the code at the failing inputs): with no output path given the
first statement of `output_json` — `os.makedirs(os.path.dirname(
file_path), exist_ok=True)` — raises before the stdout branch can run:
`TypeError` for a `None` path, `FileNotFoundError` for an empty one.  The
claimed fall-back to standard output is unreachable. -/
theorem output_json_no_path_raises :
    output_json "doc" none = .error .typeError ∧
    output_json "doc" (some "") = .error .fileNotFound :=
  ⟨rfl, rfl⟩

end PyTab
